import Mathlib

/-!
Verification of the subitizing experiment `subitize.py`.

The development shallowly embeds the core of the program:
the circle-placement rejection-sampling loop, the block/trial sequence with
its six parallel data-collection lists, the keyboard response capture, and
the pandas-based accuracy/RT aggregation. Randomness is modelled by an
explicit stream of natural numbers; the PsychoPy event buffer by a list of
key-name strings; the monotonic clock by rational-valued readings supplied
to each trial. Machine floats of the source appear only in the `round`-for-
printing layer and in `sqrt(d) <= 18`, which on integer coordinates is
equivalent to the exact comparison `d <= 18 ^ 2` used here.
-/

namespace Subitize

/-! ### Constants (lines 76-96 of subitize.py) -/

def N_BLOCKS : ℕ := 3

def N_TRIALS : ℕ := 10

def WINDOW_X : ℤ := 600

def WINDOW_Y : ℤ := 600

def WINDOW_PADDING : ℤ := 200

def CIRCLE_RADIUS : ℤ := 9

def CIRCLE_DIAMETER : ℤ := CIRCLE_RADIUS * 2

/-- Line 96: `conditions = [trial_i for trial_i in range(1, N_TRIALS+1)]`. -/
def conditions : List ℕ := (List.range N_TRIALS).map (fun i => i + 1)

/-! ### Randomness and the circle-placement loop (lines 193-216) -/

/-- `random.randint(lo, hi)` draws uniformly from the inclusive integer
interval `[lo, hi]`; a uniform source value `u` is reduced modulo the
interval size. -/
def randint (lo hi : ℤ) (u : ℕ) : ℤ := lo + (u : ℤ) % (hi - lo + 1)

/-- Lower bound of the x-draw, line 200:
`(-WINDOW_X/2)+CIRCLE_DIAMETER+WINDOW_PADDING+1`. -/
def xLow : ℤ := -(WINDOW_X / 2) + CIRCLE_DIAMETER + WINDOW_PADDING + 1

/-- Upper bound of the x-draw, line 201:
`(WINDOW_X/2)-CIRCLE_DIAMETER-WINDOW_PADDING-1`. -/
def xHigh : ℤ := WINDOW_X / 2 - CIRCLE_DIAMETER - WINDOW_PADDING - 1

/-- Lower bound of the y-draw, line 203. -/
def yLow : ℤ := -(WINDOW_Y / 2) + CIRCLE_DIAMETER + WINDOW_PADDING + 1

/-- Upper bound of the y-draw, line 204. -/
def yHigh : ℤ := WINDOW_Y / 2 - CIRCLE_DIAMETER - WINDOW_PADDING - 1

/-- Modelled from the spec: the placeable sub-rectangle of the spec is the region
"inset by the margin and by half the minimum distance on each side"; its
lower x-bound, to be compared with `xLow` of the source. -/
def specXLow : ℤ := -(WINDOW_X / 2 - WINDOW_PADDING - CIRCLE_DIAMETER / 2)

/-- Modelled from the spec: upper bound of the placeable
sub-rectangle of the spec on the x-axis (`300 - 200 - 9`). -/
def specXHigh : ℤ := WINDOW_X / 2 - WINDOW_PADDING - CIRCLE_DIAMETER / 2

/-- Squared Euclidean distance between two integer points (line 211 squares
and then takes a square root; on integers `sqrt d <= 18` iff `d <= 18 ^ 2`). -/
def dist2 (p q : ℤ × ℤ) : ℤ := (p.1 - q.1) ^ 2 + (p.2 - q.2) ^ 2

/-- Lines 209-213: the candidate is rejected when its distance to some
already accepted position is `<= CIRCLE_DIAMETER`. -/
def overlapsAny (c : ℤ × ℤ) (placed : List (ℤ × ℤ)) : Bool :=
  placed.any (fun q => dist2 c q ≤ CIRCLE_DIAMETER ^ 2)

/-- Lines 200-204: one candidate position; the stream `s` supplies the two
uniform source values of draw number `k`. -/
def candidate (s : ℕ → ℕ) (k : ℕ) : ℤ × ℤ :=
  (randint xLow xHigh (s (2 * k)), randint yLow yHigh (s (2 * k + 1)))

/-- Lines 196-213: the inner `while not valid` rejection loop, with explicit
fuel; `k0` numbers the candidate draws consumed so far. Returns the accepted
position and the next draw number. -/
def findValid (s : ℕ → ℕ) (placed : List (ℤ × ℤ)) : ℕ → ℕ → Option ((ℤ × ℤ) × ℕ)
  | _, 0 => none
  | k0, fuel + 1 =>
    let c := candidate s k0
    if overlapsAny c placed then findValid s placed (k0 + 1) fuel
    else some (c, k0 + 1)

/-- Lines 193-216: the outer `for circle_i in range(n_circles)` loop,
appending each accepted position to `valid_positions` (`acc`). -/
def placeLoop (s : ℕ → ℕ) : List (ℤ × ℤ) → ℕ → ℕ → ℕ → Option (List (ℤ × ℤ) × ℕ)
  | acc, 0, k0, _ => some (acc, k0)
  | acc, n + 1, k0, fuel =>
    match findValid s acc k0 fuel with
    | none => none
    | some (c, k1) => placeLoop s (acc ++ [c]) n k1 fuel

/-- The whole placement of one trial: `valid_positions` starts empty. -/
def validPositions (s : ℕ → ℕ) (nCircles fuel : ℕ) : Option (List (ℤ × ℤ) × ℕ) :=
  placeLoop s [] nCircles 0 fuel

/-- Positions the loop may accept: inside the drawn rectangle. -/
def inBounds (p : ℤ × ℤ) : Prop :=
  xLow ≤ p.1 ∧ p.1 ≤ xHigh ∧ yLow ≤ p.2 ∧ p.2 ≤ yHigh

/-- Pairwise separation by strictly more than the circle diameter, stated on
squared distances. -/
def separatedList (l : List (ℤ × ℤ)) : Prop :=
  l.Pairwise (fun p q => CIRCLE_DIAMETER ^ 2 < dist2 p q)

/-! ### Keyboard events and response capture (lines 226-241) -/

/-- The PsychoPy event buffer: the list of key names pressed and not yet
consumed. -/
structure EventBuffer where
  keys : List String

/-- `event.clearEvents()` (line 226). -/
def clearEvents (_ : EventBuffer) : EventBuffer := ⟨[]⟩

/-- Key presses append to the buffer. -/
def press (b : EventBuffer) (ks : List String) : EventBuffer := ⟨b.keys ++ ks⟩

/-- `event.getKeys()` (line 237): returns and removes the buffered keys. -/
def getKeys (b : EventBuffer) : List String × EventBuffer := (b.keys, ⟨[]⟩)

/-- The `keyList` of `event.waitKeys` on line 239. -/
def digitKeyList : List String :=
  ["1", "2", "3", "4", "5", "6", "7", "8", "9", "0"]

/-- The Python method `str.isnumeric()`, restricted to the ASCII key names PsychoPy
produces: nonempty and all characters decimal digits. -/
def pyIsNumeric (s : String) : Bool :=
  !s.data.isEmpty && s.data.all Char.isDigit

/-- The Python conversion `int(s)` for a numeric ASCII string (used on lines 238, 241). -/
def pyToInt (s : String) : ℤ :=
  ((s.data.foldl (fun acc c => 10 * acc + (c.toNat - 48)) 0 : ℕ) : ℤ)

/-- Line 238: `not keys or not keys[0].isnumeric() or not 0 <= int(keys[0]) <= 9`,
negated — the buffered key list already holds a usable response. -/
def isValidResponse : List String → Bool
  | [] => false
  | k :: _ => pyIsNumeric k && decide (0 ≤ pyToInt k) && decide (pyToInt k ≤ 9)

/-- Per-trial environment: the keys the participant presses during fixation
and during stimulus display, the digit key eventually returned by the
blocking `event.waitKeys(keyList=...)`, and the two clock readings taken on
lines 234 and 240. -/
structure TrialEnv where
  fixKeys : List String
  stimKeys : List String
  waitKey : String
  tAsk : ℚ
  tResp : ℚ

/-- The event buffer at the response prompt: fixation-phase presses, then
`event.clearEvents()` on line 226, then stimulus-phase presses. -/
def promptBuffer (env : TrialEnv) : EventBuffer :=
  press (clearEvents (press ⟨[]⟩ env.fixKeys)) env.stimKeys

/-- Lines 237-239: the key list the response is read from — the buffered
keys when their first entry is a valid digit, else the result of the
blocking wait restricted to `digitKeyList`. -/
def responseKeys (env : TrialEnv) : List String :=
  let ks := (getKeys (promptBuffer env)).fst
  if isValidResponse ks then ks else [env.waitKey]

/-- Line 241: `response = int(keys[0])`. -/
def trialResponse (env : TrialEnv) : ℤ := pyToInt ((responseKeys env).headD "")

/-- Line 240: `rt = timer.getTime() - time_asked`. -/
def trialRT (env : TrialEnv) : ℚ := env.tResp - env.tAsk

/-! ### The six data-collection lists and the block/trial sequence
(lines 103-108, 169-249) -/

/-- The six parallel accumulator lists of lines 103-108. -/
structure SessionState where
  block_n : List ℕ
  trial_n : List ℕ
  correct_response : List ℕ
  participant_response : List ℤ
  was_correct : List Bool
  rt_list : List ℚ

/-- All six lists start empty. -/
def initialState : SessionState := ⟨[], [], [], [], [], []⟩

/-- Lines 244-249: one completed trial appends one element to each list;
`was_correct` records `n_circles == response` with no remapping. -/
def runTrial (block_i trial_i n_circles : ℕ) (env : TrialEnv) (st : SessionState) :
    SessionState :=
  { block_n := st.block_n ++ [block_i]
    trial_n := st.trial_n ++ [trial_i]
    correct_response := st.correct_response ++ [n_circles]
    participant_response := st.participant_response ++ [trialResponse env]
    was_correct := st.was_correct ++ [decide ((n_circles : ℤ) = trialResponse env)]
    rt_list := st.rt_list ++ [trialRT env] }

/-- Per-block environment: the contents of `conditions` right after
`random.shuffle(conditions)` (line 180; the in-place shuffle makes each
list of each block a permutation of the original `conditions`), and one trial
environment per trial index. -/
structure BlockEnv where
  shuffled : List ℕ
  trial : ℕ → TrialEnv

/-- Lines 181-249: `for trial_i in range(N_TRIALS)` with
`n_circles = conditions[trial_i]` (in-range indexing; `getD` default is
unreachable since the shuffled list has length `N_TRIALS`). -/
def runBlock (block_i : ℕ) (b : BlockEnv) (st : SessionState) : SessionState :=
  (List.range N_TRIALS).foldl
    (fun s t => runTrial block_i t (b.shuffled.getD t 0) (b.trial t) s) st

/-- Lines 169-249: `for block_i in range(1, N_BLOCKS+1)`. -/
def runSession (be : ℕ → BlockEnv) : SessionState :=
  (List.range N_BLOCKS).foldl (fun s i => runBlock (i + 1) (be (i + 1)) s) initialState

/-- The condition values recorded for block `b`: the `correct_response`
entries whose companion `block_n` entry equals `b`. -/
def blockConditions (st : SessionState) (b : ℕ) : List ℕ :=
  ((st.block_n.zip st.correct_response).filter (fun p => p.1 == b)).map Prod.snd

/-- All six accumulator lists have length `L`. -/
def allLen (st : SessionState) (L : ℕ) : Prop :=
  st.block_n.length = L ∧ st.trial_n.length = L ∧ st.correct_response.length = L ∧
  st.participant_response.length = L ∧ st.was_correct.length = L ∧ st.rt_list.length = L

/-- Derived form of the `correct_response` contribution of one block. -/
def blockConds (b : BlockEnv) : List ℕ :=
  (List.range N_TRIALS).map (fun i => b.shuffled.getD i 0)

/-- Derived form of the `participant_response` contribution of one block. -/
def blockResponses (b : BlockEnv) : List ℤ :=
  (List.range N_TRIALS).map (fun i => trialResponse (b.trial i))

/-- Derived form of the `was_correct` contribution of one block. -/
def blockCorrect (b : BlockEnv) : List Bool :=
  (List.range N_TRIALS).map
    (fun i => decide ((b.shuffled.getD i 0 : ℤ) = trialResponse (b.trial i)))

/-- Derived form of the `rt_list` contribution of one block. -/
def blockRTs (b : BlockEnv) : List ℚ :=
  (List.range N_TRIALS).map (fun i => trialRT (b.trial i))

/-! ### Results aggregation (lines 265-301) -/

/-- One row of the results DataFrame (line 265-271). -/
structure Row where
  block : ℕ
  trial : ℕ
  n_objects_actual : ℕ
  n_objects_guessed : ℤ
  correct : Bool
  rt : ℚ

/-- Booleans average as 0/1 values in pandas. -/
def boolVal (b : Bool) : ℚ := if b then 1 else 0

/-- The `correct` column as pandas sees it. -/
def rowCorrect (r : Row) : ℚ := boolVal r.correct

/-- The `rt` column. -/
def rowRT (r : Row) : ℚ := r.rt

/-- Unweighted column mean, the `"mean"` aggregation. -/
def colMean (rows : List Row) (f : Row → ℚ) : ℚ :=
  (rows.map f).sum / (rows.length : ℚ)

/-- The distinct group keys in ascending order, as `DataFrame.groupby`
produces them. -/
def groupKeys (ks : List ℕ) : List ℕ := ks.toFinset.sort (fun a b => a ≤ b)

/-- `results.groupby(key)[col].agg("mean")`: one entry per distinct key,
pairing the key with the unweighted mean of `f` over the rows of that key. -/
def groupByMean (rows : List Row) (key : Row → ℕ) (f : Row → ℚ) : List (ℕ × ℚ) :=
  (groupKeys (rows.map key)).map
    (fun k => (k, colMean (rows.filter (fun r => key r == k)) f))

/-- Line 277: `results.groupby(block)[correct].agg(mean)`. -/
def perBlockAccuracy (rows : List Row) : List (ℕ × ℚ) :=
  groupByMean rows Row.block rowCorrect

/-- Line 281: `results.groupby(n_objects_actual)[correct].agg(mean)`. -/
def perCountAccuracy (rows : List Row) : List (ℕ × ℚ) :=
  groupByMean rows Row.n_objects_actual rowCorrect

/-- Line 285: `results[correct].agg(mean)`; pandas yields NaN on an
empty column, modelled as `none`. -/
def overallAccuracy (rows : List Row) : Option ℚ :=
  if rows.isEmpty then none else some (colMean rows rowCorrect)

/-- Line 293: per-block mean response time. -/
def perBlockRT (rows : List Row) : List (ℕ × ℚ) := groupByMean rows Row.block rowRT

/-- Line 297: per-count mean response time. -/
def perCountRT (rows : List Row) : List (ℕ × ℚ) :=
  groupByMean rows Row.n_objects_actual rowRT

/-- Line 301: overall mean response time, NaN (`none`) on an empty column. -/
def overallRT (rows : List Row) : Option ℚ :=
  if rows.isEmpty then none else some (colMean rows rowRT)

/-! ### Concrete instances used by witnesses -/

/-- A randomness stream whose five first candidates are accepted outright. -/
def sW : ℕ → ℕ := fun k => 61 * k

/-- The positions `placeLoop` produces from `sW` for five circles. -/
def psW : List (ℤ × ℤ) :=
  [(-81, -20), (41, -61), (0, 61), (-41, 20), (81, -21)]

/-- A stream that always proposes the same point: the rejection loop can
never accept a second circle from it. -/
def constStream : ℕ → ℕ := fun _ => 81

/-- A concrete trial environment: no keys pressed before the prompt, the
blocking wait returns the digit key for 5, and the clock advances by 1. -/
def envW : TrialEnv := ⟨[], [], "5", 0, 1⟩

/-- A concrete block environment: conditions unshuffled, every trial runs
in `envW`. -/
def beW : ℕ → BlockEnv := fun _ => ⟨conditions, fun _ => envW⟩

/-- A trial environment with a non-digit key pressed during fixation and
during stimulus display. -/
def envW4 : TrialEnv := ⟨["x"], ["a"], "3", 0, 1⟩

/-- Two concrete data rows over two blocks. -/
def rowsW : List Row :=
  [⟨1, 0, 3, 3, true, 1⟩, ⟨1, 1, 7, 5, false, 2⟩, ⟨3, 0, 2, 2, true, 1⟩]

end Subitize

namespace Subitize

/-! ### Placement loop: soundness, nontermination, draw bounds -/

lemma dist2_comm (p q : ℤ × ℤ) : dist2 p q = dist2 q p := by
  simp [dist2]; ring

lemma randint_mem (lo hi : ℤ) (h : lo ≤ hi) (u : ℕ) :
    lo ≤ randint lo hi u ∧ randint lo hi u ≤ hi := by
  unfold randint
  have hpos : 0 < hi - lo + 1 := by omega
  have h1 : 0 ≤ (u : ℤ) % (hi - lo + 1) := Int.emod_nonneg _ (by omega)
  have h2 : (u : ℤ) % (hi - lo + 1) < hi - lo + 1 := Int.emod_lt_of_pos _ hpos
  omega

lemma candidate_inBounds (s : ℕ → ℕ) (k : ℕ) : inBounds (candidate s k) := by
  have hx := randint_mem xLow xHigh (by decide) (s (2 * k))
  have hy := randint_mem yLow yHigh (by decide) (s (2 * k + 1))
  exact ⟨hx.1, hx.2, hy.1, hy.2⟩

lemma overlapsAny_false {c : ℤ × ℤ} {placed : List (ℤ × ℤ)}
    (h : overlapsAny c placed = false) :
    ∀ q ∈ placed, CIRCLE_DIAMETER ^ 2 < dist2 c q := by
  intro q hq
  unfold overlapsAny at h
  rw [List.any_eq_false] at h
  have := h q hq
  simp at this
  omega

lemma findValid_sound (s : ℕ → ℕ) (placed : List (ℤ × ℤ)) :
    ∀ (fuel k0 : ℕ) (c : ℤ × ℤ) (k1 : ℕ),
      findValid s placed k0 fuel = some (c, k1) →
      overlapsAny c placed = false ∧ inBounds c := by
  intro fuel
  induction fuel with
  | zero => intro k0 c k1 h; simp [findValid] at h
  | succ fuel ih =>
    intro k0 c k1 h
    cases hov : overlapsAny (candidate s k0) placed with
    | true =>
      simp only [findValid, hov, if_true] at h
      exact ih (k0 + 1) c k1 h
    | false =>
      simp only [findValid, hov, Bool.false_eq_true, if_false, Option.some.injEq,
        Prod.mk.injEq] at h
      obtain ⟨hc, hk⟩ := h
      subst hc
      exact ⟨hov, candidate_inBounds s k0⟩

lemma placeLoop_sound (s : ℕ → ℕ) :
    ∀ (n : ℕ) (acc : List (ℤ × ℤ)) (k0 fuel : ℕ) (ps : List (ℤ × ℤ)) (k' : ℕ),
      placeLoop s acc n k0 fuel = some (ps, k') →
      ps.length = acc.length + n ∧
      (∀ p ∈ ps, p ∈ acc ∨ inBounds p) ∧
      (separatedList acc → separatedList ps) := by
  intro n
  induction n with
  | zero =>
    intro acc k0 fuel ps k' h
    simp only [placeLoop, Option.some.injEq, Prod.mk.injEq] at h
    obtain ⟨rfl, _⟩ := h
    exact ⟨by omega, fun p hp => Or.inl hp, fun hs => hs⟩
  | succ n ih =>
    intro acc k0 fuel ps k' h
    simp only [placeLoop] at h
    cases hfv : findValid s acc k0 fuel with
    | none => rw [hfv] at h; simp at h
    | some ck =>
      obtain ⟨c, k1⟩ := ck
      rw [hfv] at h
      obtain ⟨hov, hib⟩ := findValid_sound s acc fuel k0 c k1 hfv
      obtain ⟨hlen, hmem, hsep⟩ := ih (acc ++ [c]) k1 fuel ps k' h
      refine ⟨by simp at hlen; omega, ?_, ?_⟩
      · intro p hp
        rcases hmem p hp with hin | hb
        · rcases List.mem_append.mp hin with h1 | h1
          · exact Or.inl h1
          · simp at h1; subst h1; exact Or.inr hib
        · exact Or.inr hb
      · intro hacc
        apply hsep
        rw [separatedList, List.pairwise_append]
        refine ⟨hacc, List.pairwise_singleton _ _, ?_⟩
        intro a ha b hb
        simp at hb; subst hb
        have := overlapsAny_false hov a ha
        rw [dist2_comm] at this
        exact this

/-- Claim C2 (amended): whenever the placement loop completes for a count
`n` in 1..10, it has produced exactly `n` positions, all with both
coordinates within `[-82, 82]` (the actual draw range is the tighter
`[-81, 81]`), and pairwise separated by Euclidean distance strictly
greater than the circle diameter 18 (stated on squared distances).
Termination itself is not guaranteed for every randomness stream, see the
counterexample. -/
theorem c2_theorem (s : ℕ → ℕ) (n k0 fuel : ℕ) (ps : List (ℤ × ℤ)) (k' : ℕ)
    (hn : 1 ≤ n ∧ n ≤ 10) (h : placeLoop s [] n k0 fuel = some (ps, k')) :
    ps.length = n ∧
    (∀ p ∈ ps, -82 ≤ p.1 ∧ p.1 ≤ 82 ∧ -82 ≤ p.2 ∧ p.2 ≤ 82) ∧
    separatedList ps := by
  obtain ⟨hlen, hmem, hsep⟩ := placeLoop_sound s n [] k0 fuel ps k' h
  refine ⟨by simpa using hlen, ?_, hsep (List.Pairwise.nil)⟩
  intro p hp
  rcases hmem p hp with h1 | h1
  · simp at h1
  · obtain ⟨a1, a2, a3, a4⟩ := h1
    have e1 : xLow = -81 := by decide
    have e2 : xHigh = 81 := by decide
    have e3 : yLow = -81 := by decide
    have e4 : yHigh = 81 := by decide
    omega

lemma candidate_const (k : ℕ) : candidate constStream k = (0, 0) := rfl

lemma findValid_const_none : ∀ (fuel k0 : ℕ),
    findValid constStream [(0, 0)] k0 fuel = none := by
  intro fuel
  induction fuel with
  | zero => intro k0; rfl
  | succ fuel ih =>
    intro k0
    have hov : overlapsAny (candidate constStream k0) [(0, 0)] = true := by
      rw [candidate_const]; decide
    simp only [findValid, hov, if_true]
    exact ih (k0 + 1)

lemma placeLoop_const_none (fuel : ℕ) :
    placeLoop constStream [] 2 0 fuel = none := by
  cases fuel with
  | zero => rfl
  | succ f =>
    have h1 : findValid constStream [] 0 (f + 1) = some ((0, 0), 1) := by
      have hov : overlapsAny (candidate constStream 0) [] = false := rfl
      simp only [findValid, hov, Bool.false_eq_true, if_false]
      rfl
    simp only [placeLoop, h1]
    simp only [List.nil_append]
    simp only [placeLoop, findValid_const_none (f + 1) 1]

/-- Claim C2, counterexample to the claim as stated: the placement loop does
not terminate for every feasible call — the constant randomness stream
keeps proposing the already-placed point, so for `n = 2` no amount of fuel
makes `placeLoop` return. -/
theorem c2_counterexample :
    ¬ ∀ (s : ℕ → ℕ) (n : ℕ), 1 ≤ n → n ≤ 10 →
        ∃ fuel ps k', placeLoop s [] n 0 fuel = some (ps, k') := by
  intro h
  obtain ⟨fuel, ps, k', heq⟩ := h constStream 2 (by omega) (by omega)
  rw [placeLoop_const_none fuel] at heq
  exact Option.noConfusion heq

/-- Witness for C2: the stream `sW` places five circles with fuel 1 per
draw, and the theorem applies to that concrete run. -/
theorem c2_witness :
    (1 ≤ 5 ∧ 5 ≤ 10) ∧ psW.length = 5 :=
  ⟨⟨by omega, by omega⟩, (c2_theorem sW 5 0 1 psW 5 ⟨by omega, by omega⟩ (by decide)).1⟩

/-- Claim C5, counterexample to the claim as stated: the draw interval of
the code is `[-81, 81]` (inset by margin + full diameter + 1), not the
`[-91, 91]` (inset by margin + half the minimum distance) the spec
describes. -/
theorem c5_counterexample :
    (xLow = -81 ∧ xHigh = 81) ∧ (specXLow = -91 ∧ specXHigh = 91) ∧
    ¬(xLow = specXLow ∧ xHigh = specXHigh) := by decide

/-- Claim C5 (amended): each candidate coordinate is drawn by `randint`
over the integer interval `[-81, 81] = [xLow, xHigh]`; every draw lands in
that interval, and each value of the interval is reached by exactly one
source value per block of 163, i.e. the draw is uniform over `[-81, 81]`,
not over `[-91, 91]`. -/
theorem c5_theorem (u : ℕ) (v : ℤ) (hv : xLow ≤ v ∧ v ≤ xHigh) :
    (xLow ≤ randint xLow xHigh u ∧ randint xLow xHigh u ≤ xHigh) ∧
    ∃! w : ℕ, w < 163 ∧ randint xLow xHigh w = v := by
  constructor
  · exact randint_mem xLow xHigh (by decide) u
  · have e1 : xLow = -81 := by decide
    have e2 : xHigh = 81 := by decide
    rw [e1, e2] at hv ⊢
    refine ⟨(v + 81).toNat, ⟨by omega, ?_⟩, ?_⟩
    · unfold randint
      norm_num
      omega
    · intro w hw
      obtain ⟨hw1, hw2⟩ := hw
      unfold randint at hw2
      norm_num at hw2
      omega

/-- Witness for C5 at `u = 5`, `v = 0`. -/
theorem c5_witness :
    (xLow ≤ 0 ∧ (0 : ℤ) ≤ xHigh) ∧
    (xLow ≤ randint xLow xHigh 5 ∧ randint xLow xHigh 5 ≤ xHigh) :=
  ⟨⟨by decide, by decide⟩, (c5_theorem 5 0 ⟨by decide, by decide⟩).1⟩

/-! ### Block/session structure -/

lemma runBlockAux (bi : ℕ) (b : BlockEnv) (m : ℕ) (st : SessionState) :
    (List.range m).foldl
      (fun s t => runTrial bi t (b.shuffled.getD t 0) (b.trial t) s) st =
      { block_n := st.block_n ++ List.replicate m bi
        trial_n := st.trial_n ++ List.range m
        correct_response := st.correct_response ++
          (List.range m).map (fun i => b.shuffled.getD i 0)
        participant_response := st.participant_response ++
          (List.range m).map (fun i => trialResponse (b.trial i))
        was_correct := st.was_correct ++
          (List.range m).map
            (fun i => decide ((b.shuffled.getD i 0 : ℤ) = trialResponse (b.trial i)))
        rt_list := st.rt_list ++ (List.range m).map (fun i => trialRT (b.trial i)) } := by
  induction m with
  | zero => simp
  | succ m ih =>
    rw [List.range_succ, List.foldl_append, ih]
    simp [runTrial, List.range_succ, List.replicate_succ']

lemma runBlock_eq (bi : ℕ) (b : BlockEnv) (st : SessionState) :
    runBlock bi b st =
      { block_n := st.block_n ++ List.replicate N_TRIALS bi
        trial_n := st.trial_n ++ List.range N_TRIALS
        correct_response := st.correct_response ++ blockConds b
        participant_response := st.participant_response ++ blockResponses b
        was_correct := st.was_correct ++ blockCorrect b
        rt_list := st.rt_list ++ blockRTs b } := by
  rw [runBlock, runBlockAux]
  rfl

lemma runSession_eq (be : ℕ → BlockEnv) :
    runSession be =
      { block_n := List.replicate N_TRIALS 1 ++ List.replicate N_TRIALS 2 ++
          List.replicate N_TRIALS 3
        trial_n := List.range N_TRIALS ++ List.range N_TRIALS ++ List.range N_TRIALS
        correct_response := blockConds (be 1) ++ blockConds (be 2) ++ blockConds (be 3)
        participant_response := blockResponses (be 1) ++ blockResponses (be 2) ++
          blockResponses (be 3)
        was_correct := blockCorrect (be 1) ++ blockCorrect (be 2) ++ blockCorrect (be 3)
        rt_list := blockRTs (be 1) ++ blockRTs (be 2) ++ blockRTs (be 3) } := by
  have h3 : List.range N_BLOCKS = [0, 1, 2] := rfl
  rw [runSession, h3]
  simp only [List.foldl_cons, List.foldl_nil]
  rw [runBlock_eq, runBlock_eq, runBlock_eq]
  simp [initialState, List.append_assoc]

/-! ### C3: per-block conditions -/

lemma getD_range_eq (l : List ℕ) :
    (List.range l.length).map (fun i => l.getD i 0) = l := by
  induction l with
  | nil => rfl
  | cons x t ih =>
    rw [List.length_cons, List.range_succ_eq_map]
    simp only [List.map_cons, List.map_map, Function.comp_def,
      List.getD_cons_zero, List.getD_cons_succ]
    rw [ih]

lemma tag_filter (a c : ℕ) (l : List ℕ) :
    ((((List.replicate l.length a).zip l).filter (fun p => p.1 == c)).map Prod.snd) =
      if a = c then l else [] := by
  induction l with
  | nil => simp
  | cons x t ih =>
    simp only [List.length_cons, List.replicate_succ, List.zip_cons_cons,
      List.filter_cons]
    by_cases h : a = c
    · simp [h] at ih ⊢
      exact ih
    · have hb : (a == c) = false := by simp [h]
      simp [hb, h] at ih ⊢
      exact ih

lemma conditions_nodup : conditions.Nodup := by decide

lemma conditions_length : conditions.length = N_TRIALS := rfl

lemma blockConds_eq (b : BlockEnv) (h : b.shuffled.length = N_TRIALS) :
    blockConds b = b.shuffled := by
  rw [blockConds, ← h, getD_range_eq]

/-- Claim C3: every block appends exactly `N_TRIALS` records, the condition
values recorded for each block are a permutation of `conditions = {1..10}`
(hence without duplicates, and the same set recurs in every block), every
record carries a block tag in `1..N_BLOCKS`, and the block count of each
tag is exactly `N_TRIALS`. The hypothesis states exactly what
`random.shuffle` guarantees: each block sees a permutation of the condition
list. -/
theorem c3_theorem (be : ℕ → BlockEnv)
    (hperm : ∀ b, 1 ≤ b → b ≤ N_BLOCKS → ((be b).shuffled).Perm conditions)
    (b : ℕ) (hb1 : 1 ≤ b) (hb2 : b ≤ N_BLOCKS) :
    (runSession be).block_n.count b = N_TRIALS ∧
    (blockConditions (runSession be) b).Perm conditions ∧
    (blockConditions (runSession be) b).Nodup ∧
    (∀ x ∈ (runSession be).block_n, 1 ≤ x ∧ x ≤ N_BLOCKS) := by
  have hlen : ∀ i, 1 ≤ i → i ≤ N_BLOCKS → ((be i).shuffled).length = N_TRIALS :=
    fun i h1 h2 => ((hperm i h1 h2).length_eq).trans conditions_length
  have hc1 := blockConds_eq (be 1) (hlen 1 (by omega) (by decide))
  have hc2 := blockConds_eq (be 2) (hlen 2 (by omega) (by decide))
  have hc3 := blockConds_eq (be 3) (hlen 3 (by omega) (by decide))
  have hl1 := hlen 1 (by omega) (by decide)
  have hl2 := hlen 2 (by omega) (by decide)
  have hl3 := hlen 3 (by omega) (by decide)
  have hbc : blockConditions (runSession be) b =
      (if 1 = b then (be 1).shuffled else []) ++
      (if 2 = b then (be 2).shuffled else []) ++
      (if 3 = b then (be 3).shuffled else []) := by
    rw [blockConditions, runSession_eq]
    simp only [hc1, hc2, hc3]
    rw [List.zip_append, List.zip_append, List.filter_append, List.filter_append,
      List.map_append, List.map_append]
    · have t1 := tag_filter 1 b (be 1).shuffled
      have t2 := tag_filter 2 b (be 2).shuffled
      have t3 := tag_filter 3 b (be 3).shuffled
      rw [hl1] at t1; rw [hl2] at t2; rw [hl3] at t3
      rw [t1, t2, t3]
    · simp [hl1]
    · simp [hl1, hl2]
  have hN : N_BLOCKS = 3 := rfl
  rw [hN] at hb2
  interval_cases b
  · refine ⟨?_, ?_, ?_, ?_⟩
    · rw [runSession_eq]; simp [List.count_replicate]
    · rw [hbc]; simp; exact hperm 1 (by omega) (by decide)
    · rw [hbc]; simp
      exact ((hperm 1 (by omega) (by decide)).symm.nodup conditions_nodup)
    · intro x hx
      rw [runSession_eq] at hx
      simp [List.mem_replicate] at hx
      rcases hx with h | h | h <;> omega
  · refine ⟨?_, ?_, ?_, ?_⟩
    · rw [runSession_eq]; simp [List.count_replicate]
    · rw [hbc]; simp; exact hperm 2 (by omega) (by decide)
    · rw [hbc]; simp
      exact ((hperm 2 (by omega) (by decide)).symm.nodup conditions_nodup)
    · intro x hx
      rw [runSession_eq] at hx
      simp [List.mem_replicate] at hx
      rcases hx with h | h | h <;> omega
  · refine ⟨?_, ?_, ?_, ?_⟩
    · rw [runSession_eq]; simp [List.count_replicate]
    · rw [hbc]; simp; exact hperm 3 (by omega) (by decide)
    · rw [hbc]; simp
      exact ((hperm 3 (by omega) (by decide)).symm.nodup conditions_nodup)
    · intro x hx
      rw [runSession_eq] at hx
      simp [List.mem_replicate] at hx
      rcases hx with h | h | h <;> omega

/-- Witness for C3: the unshuffled block environment `beW` satisfies the
permutation hypothesis, and block 2 records exactly `N_TRIALS` trials. -/
theorem c3_witness :
    (runSession beW).block_n.count 2 = N_TRIALS :=
  (c3_theorem beW (fun _ _ _ => List.Perm.refl _) 2 (by omega) (by decide)).1

/-! ### C4, C9: response capture -/

lemma promptBuffer_fst (env : TrialEnv) :
    (getKeys (promptBuffer env)).fst = env.stimKeys := by
  simp [getKeys, promptBuffer, press, clearEvents]

lemma responseKeys_eq (env : TrialEnv) :
    responseKeys env =
      if isValidResponse env.stimKeys then env.stimKeys else [env.waitKey] := by
  rw [responseKeys, promptBuffer_fst]

lemma waitKey_digit (k : String) (hk : k ∈ digitKeyList) :
    0 ≤ pyToInt k ∧ pyToInt k ≤ 9 := by
  fin_cases hk <;> exact ⟨by decide, by decide⟩

lemma trialResponse_range (env : TrialEnv) (hw : env.waitKey ∈ digitKeyList) :
    0 ≤ trialResponse env ∧ trialResponse env ≤ 9 := by
  rw [trialResponse, responseKeys_eq]
  cases hv : isValidResponse env.stimKeys with
  | true =>
    cases hs : env.stimKeys with
    | nil => rw [hs] at hv; simp [isValidResponse] at hv
    | cons k t =>
      rw [hs] at hv
      simp only [isValidResponse, Bool.and_eq_true, decide_eq_true_eq] at hv
      simp only [if_true, hs, List.headD_cons]
      exact ⟨hv.1.2, hv.2⟩
  | false =>
    simp only [Bool.false_eq_true, if_false, List.headD_cons]
    exact waitKey_digit env.waitKey hw

/-- Claim C4: at the response prompt the event buffer holds exactly the
keys pressed during stimulus display (fixation-phase presses were cleared
by `event.clearEvents`); when the first buffered key is a valid digit the
buffered keys are used directly (no wait), and otherwise the buffered
input is discarded and the response comes from the blocking wait whose
result is restricted to the ten digit keys. -/
theorem c4_theorem (env : TrialEnv) (hw : env.waitKey ∈ digitKeyList) :
    (getKeys (promptBuffer env)).fst = env.stimKeys ∧
    (isValidResponse env.stimKeys = true → responseKeys env = env.stimKeys) ∧
    (isValidResponse env.stimKeys = false →
      responseKeys env = [env.waitKey] ∧ (responseKeys env).headD "" ∈ digitKeyList) := by
  refine ⟨promptBuffer_fst env, ?_, ?_⟩
  · intro hv
    rw [responseKeys_eq, hv]
    simp
  · intro hv
    rw [responseKeys_eq, hv]
    simp [hw]

/-- Witness for C4: a trial whose fixation and stimulus phases both saw a
non-digit key press. -/
theorem c4_witness :
    ("3" ∈ digitKeyList) ∧ (getKeys (promptBuffer envW4)).fst = envW4.stimKeys :=
  ⟨by decide, (c4_theorem envW4 (by decide)).1⟩

/-- Claim C9: every stored participant response lies in `0..9`; the value
10 is never stored, because a buffered key is only used when the code
checks `0 <= int(key) <= 9` and the blocking wait is restricted to the ten
digit keys. -/
theorem c9_theorem (be : ℕ → BlockEnv)
    (hwait : ∀ b t, ((be b).trial t).waitKey ∈ digitKeyList)
    (r : ℤ) (hr : r ∈ (runSession be).participant_response) :
    0 ≤ r ∧ r ≤ 9 ∧ r ≠ 10 := by
  rw [runSession_eq] at hr
  simp only [blockResponses, List.mem_append, List.mem_map, List.mem_range] at hr
  have hrange : 0 ≤ r ∧ r ≤ 9 := by
    rcases hr with (⟨i, _, rfl⟩ | ⟨i, _, rfl⟩) | ⟨i, _, rfl⟩
    · exact trialResponse_range _ (hwait 1 i)
    · exact trialResponse_range _ (hwait 2 i)
    · exact trialResponse_range _ (hwait 3 i)
  exact ⟨hrange.1, hrange.2, by omega⟩

/-- Witness for C9: in the concrete session every stored response is 5. -/
theorem c9_witness :
    ((5 : ℤ) ∈ (runSession beW).participant_response) ∧
    (0 ≤ (5 : ℤ) ∧ (5 : ℤ) ≤ 9 ∧ (5 : ℤ) ≠ 10) :=
  ⟨by decide,
    c9_theorem beW (fun _ _ => (by decide : ("5" : String) ∈ digitKeyList)) 5 (by decide)⟩

/-! ### C8: response times -/

/-- Claim C8: with a monotonic clock (the reading at the response is at
least the reading when the prompt appeared), every stored response time is
nonnegative. -/
theorem c8_theorem (be : ℕ → BlockEnv)
    (hclock : ∀ b t, ((be b).trial t).tAsk ≤ ((be b).trial t).tResp)
    (r : ℚ) (hr : r ∈ (runSession be).rt_list) : 0 ≤ r := by
  rw [runSession_eq] at hr
  simp only [blockRTs, List.mem_append, List.mem_map, List.mem_range] at hr
  rcases hr with (⟨i, _, rfl⟩ | ⟨i, _, rfl⟩) | ⟨i, _, rfl⟩
  · exact sub_nonneg.mpr (hclock 1 i)
  · exact sub_nonneg.mpr (hclock 2 i)
  · exact sub_nonneg.mpr (hclock 3 i)

lemma rt_mem_W : trialRT envW ∈ (runSession beW).rt_list := by
  rw [runSession_eq]
  simp only [blockRTs, List.mem_append, List.mem_map, List.mem_range]
  exact Or.inl (Or.inl ⟨0, by decide, rfl⟩)

/-- Witness for C8: the concrete session has clock readings 0 and 1 on
every trial. -/
theorem c8_witness :
    (trialRT envW ∈ (runSession beW).rt_list) ∧ 0 ≤ trialRT envW :=
  ⟨rt_mem_W, c8_theorem beW (fun _ _ => by norm_num [beW, envW]) (trialRT envW) rt_mem_W⟩

/-! ### C10: parallel lists, C1: the missing 0-to-10 remap -/

/-- Claim C10: when the six accumulator lists share a common length, one
completed trial extends each by exactly one element, and the full session
leaves all six lists with length `N_BLOCKS * N_TRIALS`. -/
theorem c10_theorem (be : ℕ → BlockEnv) (bi t n : ℕ) (env : TrialEnv)
    (st : SessionState) (L : ℕ) (h : allLen st L) :
    allLen (runTrial bi t n env st) (L + 1) ∧
    allLen (runSession be) (N_BLOCKS * N_TRIALS) := by
  obtain ⟨h1, h2, h3, h4, h5, h6⟩ := h
  constructor
  · exact ⟨by simp [runTrial, h1], by simp [runTrial, h2], by simp [runTrial, h3],
      by simp [runTrial, h4], by simp [runTrial, h5], by simp [runTrial, h6]⟩
  · rw [runSession_eq]
    refine ⟨?_, ?_, ?_, ?_, ?_, ?_⟩ <;>
      simp [blockConds, blockResponses, blockCorrect, blockRTs, N_BLOCKS, N_TRIALS]

/-- Witness for C10: starting from the empty state (all lengths 0) the
session ends with all six lists of length 30. -/
theorem c10_witness :
    allLen initialState 0 ∧ allLen (runSession beW) (N_BLOCKS * N_TRIALS) :=
  ⟨⟨rfl, rfl, rfl, rfl, rfl, rfl⟩,
    (c10_theorem beW 1 0 3 envW initialState 0 ⟨rfl, rfl, rfl, rfl, rfl, rfl⟩).2⟩

/-- Claim C1, behaviour of the code at the failing input: a trial with 10
circles on which the participant presses the key 0 stores
`participant_response = 0` and `was_correct = false` — the code never
remaps 0 to 10 before the comparison `n_circles == response`, contrary to
its own instructions text ("0 means 10"). -/
theorem c1_code_behavior :
    (runTrial 1 0 10 ⟨[], ["0"], "1", 0, 0⟩ initialState).participant_response = [0] ∧
    (runTrial 1 0 10 ⟨[], ["0"], "1", 0, 0⟩ initialState).was_correct = [false] := by
  constructor <;> decide

/-! ### C6, C7: aggregation -/

lemma sum_rowCorrect (l : List Row) :
    (l.map rowCorrect).sum = ((l.countP (fun r => r.correct) : ℕ) : ℚ) := by
  induction l with
  | nil => simp
  | cons r t ih =>
    rw [List.map_cons, List.sum_cons, ih, List.countP_cons]
    cases hc : r.correct
    · simp [rowCorrect, boolVal, hc]
    · simp [rowCorrect, boolVal, hc]
      ring

lemma groupByMean_fst (rows : List Row) (key : Row → ℕ) (f : Row → ℚ) :
    (groupByMean rows key f).map Prod.fst = groupKeys (rows.map key) := by
  rw [groupByMean, List.map_map]
  simp [Function.comp_def]

lemma groupKeys_nodup (ks : List ℕ) : (groupKeys ks).Nodup := Finset.sort_nodup _ _

lemma groupKeys_mem (ks : List ℕ) (k : ℕ) : k ∈ groupKeys ks ↔ k ∈ ks := by
  rw [groupKeys, Finset.mem_sort, List.mem_toFinset]

lemma groupByMean_val (rows : List Row) (key : Row → ℕ) (f : Row → ℚ)
    (p : ℕ × ℚ) (hp : p ∈ groupByMean rows key f) :
    p.2 = colMean (rows.filter (fun r => key r == p.1)) f := by
  rw [groupByMean, List.mem_map] at hp
  obtain ⟨k, _, rfl⟩ := hp
  rfl

/-- Claim C6: in each grouped accuracy output every grouping key present in
the input appears exactly once (the key lists are duplicate-free and hold
exactly the keys of the input rows), the accuracy paired with a key is the
unweighted mean of `is_correct` over exactly the rows of that group
(number of correct rows over group size), and for a nonempty input the
overall accuracy is the unweighted mean over all rows. -/
theorem c6_theorem (rows : List Row) :
    (((perBlockAccuracy rows).map Prod.fst).Nodup ∧
      ∀ k, k ∈ (perBlockAccuracy rows).map Prod.fst ↔ k ∈ rows.map Row.block) ∧
    (((perCountAccuracy rows).map Prod.fst).Nodup ∧
      ∀ k, k ∈ (perCountAccuracy rows).map Prod.fst ↔
        k ∈ rows.map Row.n_objects_actual) ∧
    (∀ p ∈ perBlockAccuracy rows,
      p.2 = (((rows.filter (fun r => r.block == p.1)).countP (fun r => r.correct) : ℕ) : ℚ) /
        (((rows.filter (fun r => r.block == p.1)).length : ℕ) : ℚ)) ∧
    (∀ p ∈ perCountAccuracy rows,
      p.2 = (((rows.filter (fun r => r.n_objects_actual == p.1)).countP
          (fun r => r.correct) : ℕ) : ℚ) /
        (((rows.filter (fun r => r.n_objects_actual == p.1)).length : ℕ) : ℚ)) ∧
    (rows ≠ [] →
      overallAccuracy rows =
        some (((rows.countP (fun r => r.correct) : ℕ) : ℚ) / ((rows.length : ℕ) : ℚ))) := by
  refine ⟨⟨?_, ?_⟩, ⟨?_, ?_⟩, ?_, ?_, ?_⟩
  · rw [perBlockAccuracy, groupByMean_fst]; exact groupKeys_nodup _
  · intro k; rw [perBlockAccuracy, groupByMean_fst, groupKeys_mem]
  · rw [perCountAccuracy, groupByMean_fst]; exact groupKeys_nodup _
  · intro k; rw [perCountAccuracy, groupByMean_fst, groupKeys_mem]
  · intro p hp
    rw [perBlockAccuracy] at hp
    rw [groupByMean_val rows Row.block rowCorrect p hp, colMean, sum_rowCorrect]
  · intro p hp
    rw [perCountAccuracy] at hp
    rw [groupByMean_val rows Row.n_objects_actual rowCorrect p hp, colMean, sum_rowCorrect]
  · intro hne
    rw [overallAccuracy, if_neg (by simpa using hne), colMean, sum_rowCorrect]

/-- Witness for C6 on the three concrete rows of `rowsW`. -/
theorem c6_witness :
    ((perBlockAccuracy rowsW).map Prod.fst).Nodup ∧
    (3 ∈ (perBlockAccuracy rowsW).map Prod.fst ↔ 3 ∈ rowsW.map Row.block) :=
  ⟨(c6_theorem rowsW).1.1, (c6_theorem rowsW).1.2 3⟩

/-- Claim C7, counterexample to the claim as stated: on an empty result set
the overall means are the undefined pandas value NaN (modelled `none`), so
the aggregator does produce undefined numeric output and signals no
distinguished NoData condition. -/
theorem c7_counterexample : overallAccuracy [] = none ∧ overallRT [] = none :=
  ⟨rfl, rfl⟩

/-- Claim C7 (amended): on an empty result set every per-group aggregate is
the empty mapping and the overall accuracy and response-time means are the
undefined value NaN (`none`); no division by zero is performed, but no
NoData signal exists either. -/
theorem c7_theorem :
    perBlockAccuracy [] = [] ∧ perCountAccuracy [] = [] ∧
    perBlockRT [] = [] ∧ perCountRT [] = [] ∧
    overallAccuracy [] = none ∧ overallRT [] = none := by
  refine ⟨?_, ?_, ?_, ?_, rfl, rfl⟩ <;>
    simp [perBlockAccuracy, perCountAccuracy, perBlockRT, perCountRT, groupByMean,
      groupKeys]

end Subitize
